import Mathlib

/-!
Verification of the range-streaming subsystem (`dht/range_streamer.cc`) and
the frozen-mutation codec of the repository, via a shallow embedding.

Endpoints and token ranges are abstracted as natural numbers; ring-range
containment (`range<token>::contains` with `dht::tri_compare`), snitch
proximity sorting, the gossiper and source filters are external collaborators
and appear as function-valued fields of the context. Hash maps
(`std::unordered_map`) are modelled as association lists with distinct keys;
`throw` is modelled with `Except`.
-/

abbrev Endpoint := Nat
abbrev TokenRange := Nat

/-- `streaming::stream_reason` (the operation driving a streaming run). -/
inductive StreamReason where
  | bootstrap
  | decommission
  | removenode
  | rebuild
  | repair
  | replace
deriving DecidableEq, Repr

/-- Per-keyspace data reachable through `_db.local().find_keyspace(ks)`:
the effective replication map's replication factor, whether the replication
strategy is `everywhere_topology`, the active range-to-endpoints placement
(`erm->get_range_addresses()`), the placement computed by
`strat.get_range_addresses(clone_only_token_map())` in strict resolution,
and the pending placement after `update_normal_tokens(_tokens, _address)`. -/
structure Keyspace where
  rf : Nat
  everywhere_topology : Bool
  range_addresses : List (TokenRange × List Endpoint)
  strat_range_addresses : List (TokenRange × List Endpoint)
  pending_range_addresses : List (TokenRange × List Endpoint)

/-- The immutable part of a `range_streamer`'s environment: its own fields
(`_tokens`, `_reason`, `_source_filters`) plus the external collaborators it
consults (broadcast address, config switch, token metadata, snitch,
gossiper, ring containment test). A source filter is the `should_include`
predicate with the topology argument already applied. -/
structure RangeStreamerCtx where
  broadcast_address : Endpoint
  tokens : List Nat
  reason : StreamReason
  source_filters : List (Endpoint → Bool)
  consistent_rangemovement : Bool
  nr_nodes_in_ring : Nat
  keyspaces : String → Keyspace
  contains : TokenRange → TokenRange → Bool
  sorted_by_proximity : List Endpoint → List Endpoint
  gossiper_enabled : Bool
  is_alive : Endpoint → Bool

/-- Lookup in an association list modelling `std::unordered_map::find`. -/
def assocFind {κ α : Type} [DecidableEq κ] : List (κ × α) → κ → Option α
  | [], _ => none
  | (k0, v) :: rest, k => if k0 = k then some v else assocFind rest k

/-- `m[k].push_back(v)` on an association list whose values are vectors:
appends `v` to the entry of `k`, creating the entry when absent. -/
def assocAppend {κ α : Type} [DecidableEq κ] : List (κ × List α) → κ → α → List (κ × List α)
  | [], k, v => [(k, [v])]
  | (k0, vs) :: rest, k, v =>
    if k0 = k then (k0, vs ++ [v]) :: rest else (k0, vs) :: assocAppend rest k v

/-- A fetch map: source endpoint to the vector of ranges to pull from it
(`std::unordered_map<inet_address, dht::token_range_vector>`). -/
abbrev FetchMap := List (Endpoint × List TokenRange)

/-- All ranges appearing in a fetch map's value vectors, with multiplicity. -/
def fetchAllRanges (m : FetchMap) : List TokenRange := (m.map Prod.snd).flatten

/-- An endpoint is filtered out when some registered source filter's
`should_include` returns false for it (`range_streamer.cc:48-54`). -/
def is_filtered (ctx : RangeStreamerCtx) (a : Endpoint) : Bool :=
  ctx.source_filters.any (fun f => !(f a))

/-- The inner loop of `get_range_fetch_map` over one range's candidate
address list (`range_streamer.cc:41-64`): `found` is the running
`found_source` flag; the result is the address chosen by the `break`
(if any) together with the final `found_source` value. The local broadcast
address sets `found_source` and is skipped; a filtered address is skipped;
the first remaining address is chosen. -/
def find_fetch_source (ctx : RangeStreamerCtx) : Bool → List Endpoint → Option Endpoint × Bool
  | found, [] => (none, found)
  | found, a :: rest =>
    if a = ctx.broadcast_address then find_fetch_source ctx true rest
    else if is_filtered ctx a then find_fetch_source ctx found rest
    else (some a, true)

/-- The error thrown by `get_range_fetch_map`, naming the offending range
and keyspace (`range_streamer.cc:75`). -/
inductive FetchError where
  | insufficient_sources (r : TokenRange) (ks : String)
deriving DecidableEq, Repr

/-- The loop of `get_range_fetch_map` over `ranges_with_sources`
(`range_streamer.cc:37-78`), threading the accumulated
`range_fetch_map_map`. A range with a chosen source is inserted; a range
whose only source was the local node is skipped; a range with no source
found is skipped with a warning when `_reason == replace` and the
keyspace's replication factor is 1, and otherwise throws. -/
def get_range_fetch_map_go (ctx : RangeStreamerCtx) (ks : String) (m : FetchMap) :
    List (TokenRange × List Endpoint) → Except FetchError FetchMap
  | [] => .ok m
  | (r, addrs) :: rest =>
    match find_fetch_source ctx false addrs with
    | (some a, _) => get_range_fetch_map_go ctx ks (assocAppend m a r) rest
    | (none, true) => get_range_fetch_map_go ctx ks m rest
    | (none, false) =>
      if ctx.reason = StreamReason.replace ∧ (ctx.keyspaces ks).rf = 1 then
        get_range_fetch_map_go ctx ks m rest
      else .error (.insufficient_sources r ks)

/-- `range_streamer::get_range_fetch_map` (`range_streamer.cc:32-81`):
collapses per-range candidate source lists into a per-endpoint fetch map. -/
def get_range_fetch_map (ctx : RangeStreamerCtx)
    (ranges_with_sources : List (TokenRange × List Endpoint)) (ks : String) :
    Except FetchError FetchMap :=
  get_range_fetch_map_go ctx ks [] ranges_with_sources

/-- Errors thrown by the source resolvers
(`range_streamer.cc:115,156,166,176,180,186`); `empty_front` models the
undefined behaviour of `std::vector::front()` on an empty vector
(`range_streamer.cc:169` when `old_endpoints` is empty). -/
inductive ResolveError where
  | no_sources_found (r : TokenRange)
  | pending_not_found (r : TokenRange)
  | expected_one_endpoint (n : Nat)
  | empty_front
  | multiple_endpoints (r : TokenRange)
  | node_down (e : Endpoint)
deriving DecidableEq, Repr

/-- A map from desired range to its resolved candidate source endpoints
(`std::unordered_map<dht::token_range, std::vector<inet_address>>`). -/
abbrev SourcesMap := List (TokenRange × List Endpoint)

/-- Appends every endpoint of `vs`, in order, to the entry of `k`
(the `for (inet_address& p : preferred) push_back(p)` loop,
`range_streamer.cc:107-109`). -/
def assocAppendAll (m : SourcesMap) (k : TokenRange) (vs : List Endpoint) : SourcesMap :=
  vs.foldl (fun acc v => assocAppend acc k v) m

/-- The inner loop of `get_all_ranges_with_sources_for` over the placement
entries for one desired range (`range_streamer.cc:98-112`): every ring range
containing the desired range contributes its endpoints sorted by proximity,
and sets the `found` flag. -/
def normal_collect (ctx : RangeStreamerCtx) (d : TokenRange) :
    SourcesMap → Bool → List (TokenRange × List Endpoint) → SourcesMap × Bool
  | sources, found, [] => (sources, found)
  | sources, found, (src, addrs) :: rest =>
    if ctx.contains src d then
      normal_collect ctx d (assocAppendAll sources d (ctx.sorted_by_proximity addrs)) true rest
    else normal_collect ctx d sources found rest

/-- The loop of `get_all_ranges_with_sources_for` over the desired ranges
(`range_streamer.cc:97-117`); a desired range contained in no ring range
throws. -/
def get_all_ranges_with_sources_for_go (ctx : RangeStreamerCtx) (ks : String)
    (sources : SourcesMap) : List TokenRange → Except ResolveError SourcesMap
  | [] => .ok sources
  | d :: rest =>
    match normal_collect ctx d sources false (ctx.keyspaces ks).range_addresses with
    | (_, false) => .error (.no_sources_found d)
    | (s1, true) => get_all_ranges_with_sources_for_go ctx ks s1 rest

/-- `range_streamer::get_all_ranges_with_sources_for`
(`range_streamer.cc:84-120`): normal-mode source resolution. -/
def get_all_ranges_with_sources_for (ctx : RangeStreamerCtx) (ks : String)
    (desired_ranges : List TokenRange) : Except ResolveError SourcesMap :=
  get_all_ranges_with_sources_for_go ctx ks [] desired_ranges

/-- The active endpoints that are absent from the pending view:
`std::erase_if(old_endpoints, [&] (ep) { return new_endpoints.contains(ep); })`
(`range_streamer.cc:163-164`). -/
def active_minus_pending (old newEps : List Endpoint) : List Endpoint :=
  old.filter (fun e => !(newEps.contains e))

/-- The per-placement-entry body of the strict resolver
(`range_streamer.cc:153-169`): looks the desired range up in the pending
placement, and when the active endpoint count equals the replication factor
removes the pending endpoints and requires exactly one endpoint to remain;
the entry's contributed source is the front of the (possibly reduced)
endpoint vector. -/
def strict_pick (ctx : RangeStreamerCtx) (ks : String) (d : TokenRange)
    (eps : List Endpoint) : Except ResolveError Endpoint :=
  match assocFind (ctx.keyspaces ks).pending_range_addresses d with
  | none => .error (.pending_not_found d)
  | some newEps =>
    if eps.length = (ctx.keyspaces ks).rf then
      match active_minus_pending eps newEps with
      | [e] => .ok e
      | other => .error (.expected_one_endpoint other.length)
    else
      match eps with
      | [] => .error .empty_front
      | e :: _ => .ok e

/-- The inner loop of the strict resolver over the active placement entries
for one desired range (`range_streamer.cc:147-171`): every containing entry
pushes its picked source onto the desired range's vector. -/
def strict_collect (ctx : RangeStreamerCtx) (ks : String) (d : TokenRange) :
    SourcesMap → List (TokenRange × List Endpoint) → Except ResolveError SourcesMap
  | sources, [] => .ok sources
  | sources, (src, eps) :: rest =>
    if ctx.contains src d then
      match strict_pick ctx ks d eps with
      | .error e => .error e
      | .ok e => strict_collect ctx ks d (assocAppend sources d e) rest
    else strict_collect ctx ks d sources rest

/-- The per-desired-range validation of the strict resolver
(`range_streamer.cc:173-187`): the desired range must have exactly one
resolved source, and when the gossiper is enabled that source must be
alive. -/
def strict_validate (ctx : RangeStreamerCtx) (d : TokenRange) (sources : SourcesMap) :
    Except ResolveError Unit :=
  match assocFind sources d with
  | none => .error (.no_sources_found d)
  | some eps =>
    match eps with
    | [e] => if ctx.gossiper_enabled && !(ctx.is_alive e) then .error (.node_down e) else .ok ()
    | _ => .error (.multiple_endpoints d)

/-- The loop of the strict resolver over the desired ranges
(`range_streamer.cc:146-188`). -/
def get_all_ranges_with_strict_sources_for_go (ctx : RangeStreamerCtx) (ks : String)
    (sources : SourcesMap) : List TokenRange → Except ResolveError SourcesMap
  | [] => .ok sources
  | d :: rest =>
    match strict_collect ctx ks d sources (ctx.keyspaces ks).strat_range_addresses with
    | .error e => .error e
    | .ok s1 =>
      match strict_validate ctx d s1 with
      | .error e => .error e
      | .ok _ => get_all_ranges_with_strict_sources_for_go ctx ks s1 rest

/-- `range_streamer::get_all_ranges_with_strict_sources_for`
(`range_streamer.cc:123-191`): strict-mode source resolution. -/
def get_all_ranges_with_strict_sources_for (ctx : RangeStreamerCtx) (ks : String)
    (desired_ranges : List TokenRange) : Except ResolveError SourcesMap :=
  get_all_ranges_with_strict_sources_for_go ctx ks [] desired_ranges

/-- `range_streamer::use_strict_sources_for_ranges`
(`range_streamer.cc:193-207`). -/
def use_strict_sources_for_ranges (ctx : RangeStreamerCtx) (ks : String) : Bool :=
  ctx.consistent_rangemovement
    && !ctx.tokens.isEmpty
    && !(ctx.keyspaces ks).everywhere_topology
    && decide ((ctx.keyspaces ks).rf ≤ ctx.nr_nodes_in_ring)

/-- The mutable state of a `range_streamer`: the direction counters
`_nr_tx_added`/`_nr_rx_added` and the multimap `_to_stream` of queued
per-keyspace fetch maps. -/
structure StreamerState where
  nr_tx_added : Nat
  nr_rx_added : Nat
  to_stream : List (String × FetchMap)
deriving Repr

/-- Errors surfaced by the `add_*` operations. -/
inductive AddError where
  | mixed_direction
  | resolve_failed (e : ResolveError)
  | fetch_failed (e : FetchError)
deriving DecidableEq, Repr

/-- `range_streamer::add_tx_ranges` (`range_streamer.cc:209-215`). The
C++ method mutates the object or throws; it is modelled as returning the
state after the call together with the thrown error, if any (a throw before
any mutation leaves the state unchanged). -/
def add_tx_ranges (st : StreamerState) (ks : String) (m : FetchMap) :
    StreamerState × Option AddError :=
  if st.nr_rx_added ≠ 0 then (st, some .mixed_direction)
  else ({ st with nr_tx_added := st.nr_tx_added + 1,
                  to_stream := st.to_stream ++ [(ks, m)] }, none)

/-- `range_streamer::add_rx_ranges` (`range_streamer.cc:217-223`). -/
def add_rx_ranges (st : StreamerState) (ks : String) (m : FetchMap) :
    StreamerState × Option AddError :=
  if st.nr_tx_added ≠ 0 then (st, some .mixed_direction)
  else ({ st with nr_rx_added := st.nr_rx_added + 1,
                  to_stream := st.to_stream ++ [(ks, m)] }, none)

/-- The resolver chosen by `add_ranges` (`range_streamer.cc:232-234`):
strict resolution only when the node is not replacing and
`use_strict_sources_for_ranges` holds. -/
def add_ranges_resolution (ctx : RangeStreamerCtx) (ks : String)
    (ranges : List TokenRange) (is_replacing : Bool) : Except ResolveError SourcesMap :=
  if !is_replacing && use_strict_sources_for_ranges ctx ks then
    get_all_ranges_with_strict_sources_for ctx ks ranges
  else
    get_all_ranges_with_sources_for ctx ks ranges

/-- `range_streamer::add_ranges` (`range_streamer.cc:226-251`): rejects a
run that already sent, increments `_nr_rx_added`, resolves sources, builds
the fetch map and queues it. The `_nr_rx_added` increment is a member-field
mutation, so it survives a later throw. -/
def add_ranges (ctx : RangeStreamerCtx) (st : StreamerState) (ks : String)
    (ranges : List TokenRange) (is_replacing : Bool) : StreamerState × Option AddError :=
  if st.nr_tx_added ≠ 0 then (st, some .mixed_direction)
  else
    let st1 := { st with nr_rx_added := st.nr_rx_added + 1 }
    match add_ranges_resolution ctx ks ranges is_replacing with
    | .error e => (st1, some (.resolve_failed e))
    | .ok ranges_for_keyspace =>
      match get_range_fetch_map ctx ranges_for_keyspace ks with
      | .error e => (st1, some (.fetch_failed e))
      | .ok fm => ({ st1 with to_stream := st1.to_stream ++ [(ks, fm)] }, none)

/-- `range_streamer::nr_ranges_to_stream` (`range_streamer.cc:329-342`):
the live sum of the per-source remaining range vectors. -/
def nr_ranges_to_stream (to_stream : List (String × FetchMap)) : Nat :=
  (to_stream.map (fun fetch => (fetch.2.map (fun ip_range => ip_range.2.length)).sum)).sum

/-- The chunking loop of `stream_async` for one source endpoint
(`range_streamer.cc:292-312`), with the outcome of each `do_streaming`
call (indexed by `sp_index`) supplied by the oracle `fails`. The state is
the current chunk `ranges_to_stream`, the remaining vector `range_vec`
(consumed destructively from the front by `erase`), and the chunks already
streamed. On a failing dispatch the current chunk is pushed back onto
`range_vec` (the `catch` block, `range_streamer.cc:305-312`) and the error
carries the restored vector and the completed chunks; on success all
dispatched chunks are returned in dispatch order. -/
def stream_source_loop (fails : Nat → Bool) (plan : Nat) (sp_index : Nat)
    (chunk : List TokenRange) (done : List (List TokenRange)) :
    List TokenRange → Except (List TokenRange × List (List TokenRange)) (List (List TokenRange))
  | [] =>
    if chunk.isEmpty then .ok done
    else if fails sp_index then .error (chunk, done)
    else .ok (done ++ [chunk])
  | r :: rest =>
    let chunk1 := chunk ++ [r]
    if chunk1.length < plan then stream_source_loop fails plan sp_index chunk1 done rest
    else if fails sp_index then .error (rest ++ chunk1, done)
    else stream_source_loop fails plan (sp_index + 1) [] (done ++ [chunk1]) rest

/-- The per-source body of `range_streamer::stream_async`
(`range_streamer.cc:267-315`): `nr_ranges_per_stream_plan` is a tenth of
the source's total range count, and the chunking loop starts empty. -/
def stream_async_source (fails : Nat → Bool) (range_vec : List TokenRange) :
    Except (List TokenRange × List (List TokenRange)) (List (List TokenRange)) :=
  stream_source_loop fails (range_vec.length / 10) 0 [] [] range_vec

/-- Modelled from the spec: a cell of a mutation (column id, timestamp,
value), the atomic unit of row content carried by the frozen-mutation wire
format (spec section 4.1 and 6; the codec implementation,
`frozen_mutation.cc`, is not part of the excerpt). -/
structure Cell where
  cid : Nat
  ts : Nat
  value : Nat
deriving DecidableEq, Repr

/-- Modelled from the spec: a clustering row (clustering key, row marker,
cells), one element of the ordered event stream of the wire format. -/
structure ClusteringRow where
  ckey : Nat
  marker_ts : Nat
  cells : List Cell
deriving DecidableEq, Repr

/-- Modelled from the spec: a schema, reduced to the version the codec
compares against the frozen stamp. -/
structure Schema where
  version : Nat
deriving DecidableEq, Repr

/-- Modelled from the spec: a live mutation built under a schema — the
schema version, the partition key, the optional partition tombstone
(timestamp, deletion time), the static row and the clustering rows in
position order (spec section 3, FrozenMutation; section 6, wire format). -/
structure Mutation where
  schema_version : Nat
  pkey : Nat
  partition_tombstone : Option (Nat × Nat)
  static_row : List Cell
  rows : List ClusteringRow
deriving DecidableEq, Repr

/-- Serialization of one cell into the flat buffer. -/
def encodeCell (c : Cell) : List Nat := [c.cid, c.ts, c.value]

/-- Serialization of a cell vector: a count followed by the cells. -/
def encodeCells (cs : List Cell) : List Nat :=
  cs.length :: (cs.map encodeCell).flatten

/-- Serialization of one clustering row. -/
def encodeRow (r : ClusteringRow) : List Nat :=
  r.ckey :: r.marker_ts :: encodeCells r.cells

/-- Serialization of the clustering-row sequence: a count followed by the
rows in position order. -/
def encodeRows (rs : List ClusteringRow) : List Nat :=
  rs.length :: (rs.map encodeRow).flatten

/-- Serialization of the optional partition tombstone. -/
def encodeTomb : Option (Nat × Nat) → List Nat
  | none => [0]
  | some (t, d) => [1, t, d]

/-- Modelled from the spec: `freeze` serializes a mutation into a
self-describing flat buffer whose first element is the schema-version
stamp, followed by the partition key, the partition tombstone, the static
row and the clustering rows (spec section 4.1 and 6). -/
def encodeMutation (m : Mutation) : List Nat :=
  m.schema_version :: m.pkey ::
    (encodeTomb m.partition_tombstone ++ encodeCells m.static_row ++ encodeRows m.rows)

/-- Deserialization of one cell; returns the cell and the unconsumed rest. -/
def decodeCell : List Nat → Option (Cell × List Nat)
  | cid :: ts :: v :: rest => some (⟨cid, ts, v⟩, rest)
  | _ => none

/-- Deserialization of `n` cells. -/
def decodeCellsN : Nat → List Nat → Option (List Cell × List Nat)
  | 0, bs => some ([], bs)
  | Nat.succ n, bs =>
    match decodeCell bs with
    | none => none
    | some (c, bs1) =>
      match decodeCellsN n bs1 with
      | none => none
      | some (cs, bs2) => some (c :: cs, bs2)

/-- Deserialization of a counted cell vector. -/
def decodeCells : List Nat → Option (List Cell × List Nat)
  | [] => none
  | n :: bs => decodeCellsN n bs

/-- Deserialization of one clustering row. -/
def decodeRow : List Nat → Option (ClusteringRow × List Nat)
  | ck :: mt :: bs1 =>
    match decodeCells bs1 with
    | none => none
    | some (cs, bs2) => some (⟨ck, mt, cs⟩, bs2)
  | _ => none

/-- Deserialization of `n` clustering rows. -/
def decodeRowsN : Nat → List Nat → Option (List ClusteringRow × List Nat)
  | 0, bs => some ([], bs)
  | Nat.succ n, bs =>
    match decodeRow bs with
    | none => none
    | some (r, bs1) =>
      match decodeRowsN n bs1 with
      | none => none
      | some (rs, bs2) => some (r :: rs, bs2)

/-- Deserialization of the counted clustering-row sequence. -/
def decodeRows : List Nat → Option (List ClusteringRow × List Nat)
  | [] => none
  | n :: bs => decodeRowsN n bs

/-- Deserialization of the optional partition tombstone. -/
def decodeTomb : List Nat → Option (Option (Nat × Nat) × List Nat)
  | 0 :: rest => some (none, rest)
  | 1 :: t :: d :: rest => some (some (t, d), rest)
  | _ => none

/-- Modelled from the spec: full deserialization of a frozen buffer back
into a live mutation; any leftover or malformed bytes are a decode
failure (spec section 4.1, failure semantics). -/
def decodeMutation (bs : List Nat) : Option Mutation :=
  match bs with
  | v :: pk :: bs1 =>
    match decodeTomb bs1 with
    | none => none
    | some (tomb, bs2) =>
      match decodeCells bs2 with
      | none => none
      | some (sr, bs3) =>
        match decodeRows bs3 with
        | some (rs, []) => some ⟨v, pk, tomb, sr, rs⟩
        | _ => none
  | _ => none

/-- Modelled from the spec: a `FrozenMutation` is an immutable byte buffer
plus the partition key extracted up front, so key-based operations need no
schema (spec section 3, FrozenMutation; `frozen_mutation.hh:153-163`). -/
structure FrozenMutation where
  bytes : List Nat
  pk : Nat
deriving DecidableEq, Repr

/-- Modelled from the spec: `freeze(mutation)` produces the serialized
buffer and eagerly extracts the partition key (spec section 4.1). -/
def freeze (m : Mutation) : FrozenMutation :=
  ⟨encodeMutation m, m.pkey⟩

/-- Modelled from the spec: `frozen_mutation::schema_version()` reads the
schema-version stamp from the representation (`frozen_mutation.hh:170`);
in this encoding the stamp is the first element of the buffer. -/
def FrozenMutation.schema_version (fm : FrozenMutation) : Nat :=
  fm.bytes.headD 0

/-- The abstract token function of the partitioner; only the fact that the
token is a function of the key matters here. -/
def token_of (pk : Nat) : Nat := pk

/-- `frozen_mutation::decorated_key` (`frozen_mutation.hh:172`): the
(token, key) pair computed from the eagerly-extracted partition key. -/
def FrozenMutation.decorated_key (fm : FrozenMutation) : Nat × Nat :=
  (token_of fm.pk, fm.pk)

/-- The decorated key of a live mutation. -/
def Mutation.decorated_key (m : Mutation) : Nat × Nat :=
  (token_of m.pkey, m.pkey)

/-- The schema-mismatch failure of `unfreeze`
(`frozen_mutation.hh:174-177`, `check_schema_version`), carrying the frozen
stamp and the schema's version; `corrupt` is the wrapped deserialization
failure of spec section 4.1. -/
inductive UnfreezeError where
  | schema_mismatch (stamp : Nat) (actual : Nat)
  | corrupt
deriving DecidableEq, Repr

/-- Modelled from the spec: `unfreeze(FrozenMutation, schema)` reconstructs
the live mutation, failing with a schema-mismatch error when the schema's
version differs from the frozen stamp — a hard precondition, never
silently coerced (spec section 4.1; `frozen_mutation.hh:174-177`). -/
def unfreeze (fm : FrozenMutation) (s : Schema) : Except UnfreezeError Mutation :=
  if s.version = fm.schema_version then
    match decodeMutation fm.bytes with
    | some m => .ok m
    | none => .error .corrupt
  else .error (.schema_mismatch fm.schema_version s.version)

/-- A minimal concrete context for witnesses: broadcast address 0, no
source filters, gossiper disabled, a trivially false containment test. -/
def ctxW1 : RangeStreamerCtx where
  broadcast_address := 0
  tokens := []
  reason := .bootstrap
  source_filters := []
  consistent_rangemovement := false
  nr_nodes_in_ring := 0
  keyspaces := fun _ => ⟨1, false, [], [], []⟩
  contains := fun _ _ => false
  sorted_by_proximity := id
  gossiper_enabled := false
  is_alive := fun _ => true

/-- A context whose single source filter rejects every endpoint, with a
non-replace reason (for the fatal branch of the no-source case). -/
def ctxW2 : RangeStreamerCtx where
  broadcast_address := 0
  tokens := []
  reason := .bootstrap
  source_filters := [fun _ => false]
  consistent_rangemovement := false
  nr_nodes_in_ring := 0
  keyspaces := fun _ => ⟨1, false, [], [], []⟩
  contains := fun _ _ => false
  sorted_by_proximity := id
  gossiper_enabled := false
  is_alive := fun _ => true

/-- A context whose single source filter rejects every endpoint, with the
replace reason and replication factor 1 (for the degenerate skip branch). -/
def ctxW3 : RangeStreamerCtx where
  broadcast_address := 0
  tokens := []
  reason := .replace
  source_filters := [fun _ => false]
  consistent_rangemovement := false
  nr_nodes_in_ring := 0
  keyspaces := fun _ => ⟨1, false, [], [], []⟩
  contains := fun _ _ => false
  sorted_by_proximity := id
  gossiper_enabled := false
  is_alive := fun _ => true

/-- A context satisfying all four strict-mode eligibility conditions:
switch on, tokens owned, not everywhere-topology, ring size at least the
replication factor. -/
def ctxW4 : RangeStreamerCtx where
  broadcast_address := 0
  tokens := [11]
  reason := .bootstrap
  source_filters := []
  consistent_rangemovement := true
  nr_nodes_in_ring := 3
  keyspaces := fun _ => ⟨1, false, [], [], []⟩
  contains := fun _ _ => false
  sorted_by_proximity := id
  gossiper_enabled := false
  is_alive := fun _ => true

/-- The number of sources currently resolved for a desired range in a
sources map (0 when the range has no entry). -/
def sourcesLen (m : SourcesMap) (d : TokenRange) : Nat :=
  ((assocFind m d).getD []).length

/-- A strict-resolution context: ring range 10 held by endpoints 1 and 2
(count = replication factor 2), pending view holding 2 and 3, so endpoint
1 is the unique active endpoint absent from the pending view. -/
def ctxW5 : RangeStreamerCtx where
  broadcast_address := 0
  tokens := [11]
  reason := .bootstrap
  source_filters := []
  consistent_rangemovement := true
  nr_nodes_in_ring := 3
  keyspaces := fun _ => ⟨2, false, [], [(10, [1, 2])], [(10, [2, 3])]⟩
  contains := fun a b => a == b
  sorted_by_proximity := id
  gossiper_enabled := false
  is_alive := fun _ => true

/-- Like `ctxW5` but with an empty pending endpoint set, so both active
endpoints survive the set difference and strict resolution must fail. -/
def ctxW6 : RangeStreamerCtx where
  broadcast_address := 0
  tokens := [11]
  reason := .bootstrap
  source_filters := []
  consistent_rangemovement := true
  nr_nodes_in_ring := 3
  keyspaces := fun _ => ⟨2, false, [], [(10, [1, 2])], [(10, [])]⟩
  contains := fun a b => a == b
  sorted_by_proximity := id
  gossiper_enabled := false
  is_alive := fun _ => true

/-! ## Theorems -/

lemma find_fetch_source_some {ctx : RangeStreamerCtx} :
    ∀ {found : Bool} {addrs : List Endpoint} {a : Endpoint} {f : Bool},
    find_fetch_source ctx found addrs = (some a, f) →
    a ≠ ctx.broadcast_address ∧ is_filtered ctx a = false := by
  intro found addrs
  induction addrs generalizing found with
  | nil => intro a f h; simp [find_fetch_source] at h
  | cons x rest ih =>
    intro a f h
    rw [find_fetch_source] at h
    by_cases hx : x = ctx.broadcast_address
    · rw [if_pos hx] at h
      exact ih h
    · rw [if_neg hx] at h
      by_cases hf : is_filtered ctx x = true
      · rw [if_pos hf] at h
        exact ih h
      · rw [if_neg hf] at h
        injection h with h1 h2
        injection h1 with h1
        subst h1
        exact ⟨hx, by simpa using hf⟩

lemma fetchAllRanges_cons (k : Endpoint) (vs : List TokenRange) (m : FetchMap) :
    fetchAllRanges ((k, vs) :: m) = vs ++ fetchAllRanges m := by
  simp [fetchAllRanges]

lemma assocAppend_count (m : FetchMap) (k : Endpoint) (v : TokenRange) (r : TokenRange) :
    (fetchAllRanges (assocAppend m k v)).count r =
      (fetchAllRanges m).count r + (if v = r then 1 else 0) := by
  induction m with
  | nil =>
    simp only [assocAppend, fetchAllRanges, List.map_cons, List.map_nil, List.flatten]
    by_cases hv : v = r <;> simp [hv, List.count_cons]
  | cons e rest ih =>
    obtain ⟨k0, vs⟩ := e
    rw [assocAppend]
    by_cases hk : k0 = k
    · rw [if_pos hk, fetchAllRanges_cons, fetchAllRanges_cons]
      by_cases hv : v = r <;>
        simp [hv, List.count_append, List.count_cons, Nat.add_comm, Nat.add_assoc, Nat.add_left_comm]
    · rw [if_neg hk, fetchAllRanges_cons, fetchAllRanges_cons]
      simp only [List.count_append, ih]
      omega

lemma get_range_fetch_map_go_count {ctx : RangeStreamerCtx} {ks : String} :
    ∀ {l : List (TokenRange × List Endpoint)} {m m' : FetchMap},
    get_range_fetch_map_go ctx ks m l = .ok m' → ∀ r : TokenRange,
    (fetchAllRanges m').count r ≤ (fetchAllRanges m).count r + (l.map Prod.fst).count r := by
  intro l
  induction l with
  | nil =>
    intro m m' h r
    rw [get_range_fetch_map_go] at h
    injection h with h
    subst h
    simp
  | cons hd tl ih =>
    obtain ⟨r0, addrs⟩ := hd
    intro m m' h r
    rw [get_range_fetch_map_go] at h
    have hcons : (((r0, addrs) :: tl).map Prod.fst).count r
        = (tl.map Prod.fst).count r + (if r0 = r then 1 else 0) := by
      by_cases hr : r0 = r <;> simp [List.map_cons, List.count_cons, beq_iff_eq, hr]
    rcases hfs : find_fetch_source ctx false addrs with ⟨_ | a, _ | _⟩ <;>
      simp only [hfs] at h
    · split at h
      · have := ih h r
        rw [hcons]
        omega
      · cases h
    · have := ih h r
      rw [hcons]
      omega
    · have hrec := ih h r
      have hins := assocAppend_count m a r0 r
      rw [hcons]
      omega
    · have hrec := ih h r
      have hins := assocAppend_count m a r0 r
      rw [hcons]
      omega

lemma assocAppend_keys {κ α : Type} [DecidableEq κ] :
    ∀ {m : List (κ × List α)} {k : κ} {v : α} {k' : κ},
    k' ∈ (assocAppend m k v).map Prod.fst → k' = k ∨ k' ∈ m.map Prod.fst := by
  intro m
  induction m with
  | nil =>
    intro k v k' h
    simp [assocAppend] at h
    exact Or.inl h
  | cons e rest ih =>
    obtain ⟨k0, vs⟩ := e
    intro k v k' h
    rw [assocAppend] at h
    by_cases hk : k0 = k
    · rw [if_pos hk] at h
      simp only [List.map_cons, List.mem_cons] at h ⊢
      tauto
    · rw [if_neg hk] at h
      simp only [List.map_cons, List.mem_cons] at h ⊢
      rcases h with h | h
      · tauto
      · rcases ih h with h | h <;> tauto

lemma get_range_fetch_map_go_keys {ctx : RangeStreamerCtx} {ks : String} :
    ∀ {l : List (TokenRange × List Endpoint)} {m m' : FetchMap},
    get_range_fetch_map_go ctx ks m l = .ok m' →
    (∀ k ∈ m.map Prod.fst, k ≠ ctx.broadcast_address) →
    ∀ k ∈ m'.map Prod.fst, k ≠ ctx.broadcast_address := by
  intro l
  induction l with
  | nil =>
    intro m m' h hm
    rw [get_range_fetch_map_go] at h
    injection h with h
    subst h
    exact hm
  | cons hd tl ih =>
    obtain ⟨r0, addrs⟩ := hd
    intro m m' h hm
    rw [get_range_fetch_map_go] at h
    rcases hfs : find_fetch_source ctx false addrs with ⟨_ | a, _ | _⟩ <;>
      simp only [hfs] at h
    · split at h
      · exact ih h hm
      · cases h
    · exact ih h hm
    · refine ih h ?_
      intro k hk
      rcases assocAppend_keys hk with h1 | h1
      · subst h1
        exact (find_fetch_source_some hfs).1
      · exact hm k h1
    · refine ih h ?_
      intro k hk
      rcases assocAppend_keys hk with h1 | h1
      · subst h1
        exact (find_fetch_source_some hfs).1
      · exact hm k h1

/-- C1: for every input map from desired token ranges to candidate source
lists, the fetch map returned by `get_range_fetch_map` assigns each desired
range to at most one source endpoint — the range appears in at most one
endpoint's range vector, counted with multiplicity — and the local node's
broadcast address never appears as a key of the returned map. -/
theorem fetch_map_single_source_no_self (ctx : RangeStreamerCtx)
    (ranges : List (TokenRange × List Endpoint)) (ks : String) (m : FetchMap)
    (hnd : (ranges.map Prod.fst).Nodup)
    (hok : get_range_fetch_map ctx ranges ks = .ok m) :
    (∀ r : TokenRange, (fetchAllRanges m).count r ≤ 1) ∧
    (∀ e ∈ m, e.1 ≠ ctx.broadcast_address) := by
  constructor
  · intro r
    have h1 := get_range_fetch_map_go_count hok r
    have h2 : ((ranges.map Prod.fst).count r) ≤ 1 :=
      List.nodup_iff_count_le_one.mp hnd r
    have h0 : (fetchAllRanges ([] : FetchMap)).count r = 0 := rfl
    omega
  · intro e he
    exact get_range_fetch_map_go_keys hok (by simp) e.1 (List.mem_map_of_mem Prod.fst he)

/-- Witness for C1 at a concrete input: broadcast address 0, two desired
ranges with candidate sources 2 and 4. -/
theorem fetch_map_single_source_no_self_witness :
    ((([(1, [2]), (3, [4])] : List (TokenRange × List Endpoint)).map Prod.fst).Nodup ∧
      get_range_fetch_map ctxW1 [(1, [2]), (3, [4])] "ks" = .ok [(2, [1]), (4, [3])]) ∧
    ((∀ r : TokenRange, (fetchAllRanges [(2, [1]), (4, [3])]).count r ≤ 1) ∧
      (∀ e ∈ ([(2, [1]), (4, [3])] : FetchMap), e.1 ≠ ctxW1.broadcast_address)) :=
  ⟨⟨by decide, by rfl⟩,
    fetch_map_single_source_no_self ctxW1 [(1, [2]), (3, [4])] "ks" [(2, [1]), (4, [3])]
      (by decide) (by rfl)⟩

lemma find_fetch_source_all_bad {ctx : RangeStreamerCtx} {addrs : List Endpoint}
    (hbad : ∀ a ∈ addrs, a ≠ ctx.broadcast_address ∧ is_filtered ctx a = true) :
    ∀ found : Bool, find_fetch_source ctx found addrs = (none, found) := by
  induction addrs with
  | nil => intro found; rw [find_fetch_source]
  | cons x rest ih =>
    intro found
    obtain ⟨hx, hf⟩ := hbad x (by simp)
    rw [find_fetch_source, if_neg hx, if_pos hf]
    exact ih (fun a ha => hbad a (by simp [ha])) found

lemma get_range_fetch_map_go_append {ctx : RangeStreamerCtx} {ks : String} :
    ∀ (l1 l2 : List (TokenRange × List Endpoint)) (m : FetchMap),
    get_range_fetch_map_go ctx ks m (l1 ++ l2) =
      match get_range_fetch_map_go ctx ks m l1 with
      | .error e => .error e
      | .ok m1 => get_range_fetch_map_go ctx ks m1 l2 := by
  intro l1
  induction l1 with
  | nil =>
    intro l2 m
    simp only [List.nil_append, get_range_fetch_map_go]
  | cons hd tl ih =>
    obtain ⟨r0, addrs⟩ := hd
    intro l2 m
    rw [List.cons_append, get_range_fetch_map_go, get_range_fetch_map_go]
    rcases hfs : find_fetch_source ctx false addrs with ⟨_ | a, _ | _⟩ <;>
      simp only [hfs]
    · split
      · exact ih l2 m
      · rfl
    · exact ih l2 m
    · exact ih l2 (assocAppend m a r0)
    · exact ih l2 (assocAppend m a r0)

/-- C5: a desired range all of whose candidate endpoints are non-local and
filtered (so no source and no local copy is found) makes
`get_range_fetch_map` throw an error naming the range and the keyspace —
except when the streaming reason is replace and the keyspace's replication
factor is exactly 1, in which case the range is skipped (omitted from the
resulting fetch map) and the operation does not fail on its account. -/
theorem rf1_replace_degenerate (ctx : RangeStreamerCtx) (ks : String)
    (r : TokenRange) (addrs : List Endpoint)
    (hbad : ∀ a ∈ addrs, a ≠ ctx.broadcast_address ∧ is_filtered ctx a = true) :
    (¬(ctx.reason = StreamReason.replace ∧ (ctx.keyspaces ks).rf = 1) →
      (∀ (m : FetchMap) (rest : List (TokenRange × List Endpoint)),
        get_range_fetch_map_go ctx ks m ((r, addrs) :: rest) =
          .error (.insufficient_sources r ks)) ∧
      (∀ input, (r, addrs) ∈ input →
        ∀ m' : FetchMap, get_range_fetch_map ctx input ks ≠ .ok m')) ∧
    ((ctx.reason = StreamReason.replace ∧ (ctx.keyspaces ks).rf = 1) →
      (∀ (m : FetchMap) (rest : List (TokenRange × List Endpoint)),
        get_range_fetch_map_go ctx ks m ((r, addrs) :: rest) =
          get_range_fetch_map_go ctx ks m rest) ∧
      (∀ input (m' : FetchMap), (r, addrs) ∈ input → (input.map Prod.fst).Nodup →
        get_range_fetch_map ctx input ks = .ok m' → r ∉ fetchAllRanges m')) := by
  have hfs := find_fetch_source_all_bad hbad false
  constructor
  · intro hdeg
    have heq : ∀ (m : FetchMap) rest,
        get_range_fetch_map_go ctx ks m ((r, addrs) :: rest) =
          .error (.insufficient_sources r ks) := by
      intro m rest
      rw [get_range_fetch_map_go]
      simp only [hfs]
      rw [if_neg hdeg]
    refine ⟨heq, ?_⟩
    intro input hmem m' hok
    obtain ⟨l1, l2, rfl⟩ := List.append_of_mem hmem
    rw [get_range_fetch_map, get_range_fetch_map_go_append] at hok
    rcases h1 : get_range_fetch_map_go ctx ks [] l1 with e | m1 <;> simp only [h1] at hok
    · cases hok
    · rw [heq m1 l2] at hok
      cases hok
  · intro hdeg
    have heq : ∀ (m : FetchMap) rest,
        get_range_fetch_map_go ctx ks m ((r, addrs) :: rest) =
          get_range_fetch_map_go ctx ks m rest := by
      intro m rest
      rw [get_range_fetch_map_go]
      simp only [hfs]
      rw [if_pos hdeg]
    refine ⟨heq, ?_⟩
    intro input m' hmem hnd hok
    obtain ⟨l1, l2, rfl⟩ := List.append_of_mem hmem
    have hkeys : ((l1 ++ (r, addrs) :: l2).map Prod.fst).count r ≤ 1 :=
      List.nodup_iff_count_le_one.mp hnd r
    have hsplit : ((l1 ++ (r, addrs) :: l2).map Prod.fst).count r =
        (l1.map Prod.fst).count r + ((l2.map Prod.fst).count r + 1) := by
      simp [List.count_append, List.count_cons]
    rw [get_range_fetch_map, get_range_fetch_map_go_append] at hok
    rcases h1 : get_range_fetch_map_go ctx ks [] l1 with e | m1 <;> simp only [h1] at hok
    · cases hok
    · rw [heq m1 l2] at hok
      have hc1 := get_range_fetch_map_go_count h1 r
      have hc2 := get_range_fetch_map_go_count hok r
      have h0 : (fetchAllRanges ([] : FetchMap)).count r = 0 := rfl
      have : (fetchAllRanges m').count r = 0 := by omega
      exact List.count_eq_zero.mp this

/-- Witness for C5: with every candidate filtered, range 7 in keyspace
"ks" is fatal under a bootstrap reason and skipped under replace with
replication factor 1. -/
theorem rf1_replace_degenerate_witness :
    ((∀ a ∈ [(5 : Endpoint)], a ≠ ctxW2.broadcast_address ∧ is_filtered ctxW2 a = true) ∧
      get_range_fetch_map ctxW2 [(7, [5])] "ks" = .error (.insufficient_sources 7 "ks")) ∧
    ((∀ a ∈ [(5 : Endpoint)], a ≠ ctxW3.broadcast_address ∧ is_filtered ctxW3 a = true) ∧
      get_range_fetch_map ctxW3 [(7, [5])] "ks" = .ok []) :=
  ⟨⟨by decide,
    ((rf1_replace_degenerate ctxW2 "ks" 7 [5] (by decide)).1 (by decide)).1 [] []⟩,
   ⟨by decide,
    ((rf1_replace_degenerate ctxW3 "ks" 7 [5] (by decide)).2 (by decide)).1 [] []⟩⟩

/-- C9: `use_strict_sources_for_ranges` returns true exactly when the
`consistent_rangemovement` switch is on, the node's token set is
non-empty, the keyspace's replication strategy is not the everywhere
topology, and the ring has at least as many nodes as the keyspace's
replication factor. -/
theorem use_strict_sources_iff (ctx : RangeStreamerCtx) (ks : String) :
    use_strict_sources_for_ranges ctx ks = true ↔
      (ctx.consistent_rangemovement = true ∧ ctx.tokens ≠ [] ∧
        (ctx.keyspaces ks).everywhere_topology = false ∧
        (ctx.keyspaces ks).rf ≤ ctx.nr_nodes_in_ring) := by
  rw [use_strict_sources_for_ranges]
  constructor
  · intro h
    simp only [Bool.and_eq_true, Bool.not_eq_true', decide_eq_true_eq] at h
    obtain ⟨⟨⟨h1, h2⟩, h3⟩, h4⟩ := h
    exact ⟨h1, by simpa [List.isEmpty_iff] using h2, h3, h4⟩
  · intro ⟨h1, h2, h3, h4⟩
    simp only [Bool.and_eq_true, Bool.not_eq_true', decide_eq_true_eq]
    exact ⟨⟨⟨h1, by simpa [List.isEmpty_iff] using h2⟩, h3⟩, h4⟩

/-- C7: direction exclusivity of a streaming run. Once any
receive-direction plan has been added (`_nr_rx_added` is positive),
`add_tx_ranges` fails with the mixed-direction error and leaves the state
unchanged; symmetrically, once any send-direction plan has been added
(`_nr_tx_added` is positive), `add_rx_ranges` and `add_ranges` fail with
the mixed-direction error and leave the state unchanged. Each successful
call records its direction, and no call ever decreases either counter, so
the failure persists for every later attempt. -/
theorem direction_mutual_exclusion :
    (∀ (st : StreamerState) (ks : String) (m : FetchMap), 0 < st.nr_rx_added →
      add_tx_ranges st ks m = (st, some .mixed_direction)) ∧
    (∀ (st : StreamerState) (ks : String) (m : FetchMap), 0 < st.nr_tx_added →
      add_rx_ranges st ks m = (st, some .mixed_direction)) ∧
    (∀ (ctx : RangeStreamerCtx) (st : StreamerState) (ks : String)
        (rs : List TokenRange) (b : Bool), 0 < st.nr_tx_added →
      add_ranges ctx st ks rs b = (st, some .mixed_direction)) ∧
    (∀ (st : StreamerState) (ks : String) (m : FetchMap),
      (add_tx_ranges st ks m).2 = none → 0 < (add_tx_ranges st ks m).1.nr_tx_added) ∧
    (∀ (st : StreamerState) (ks : String) (m : FetchMap),
      (add_rx_ranges st ks m).2 = none → 0 < (add_rx_ranges st ks m).1.nr_rx_added) ∧
    (∀ (ctx : RangeStreamerCtx) (st : StreamerState) (ks : String)
        (rs : List TokenRange) (b : Bool),
      (add_ranges ctx st ks rs b).2 ≠ some .mixed_direction →
        0 < (add_ranges ctx st ks rs b).1.nr_rx_added) ∧
    (∀ (st : StreamerState) (ks : String) (m : FetchMap),
      st.nr_tx_added ≤ (add_tx_ranges st ks m).1.nr_tx_added ∧
      st.nr_rx_added ≤ (add_tx_ranges st ks m).1.nr_rx_added ∧
      st.nr_tx_added ≤ (add_rx_ranges st ks m).1.nr_tx_added ∧
      st.nr_rx_added ≤ (add_rx_ranges st ks m).1.nr_rx_added) ∧
    (∀ (ctx : RangeStreamerCtx) (st : StreamerState) (ks : String)
        (rs : List TokenRange) (b : Bool),
      st.nr_tx_added ≤ (add_ranges ctx st ks rs b).1.nr_tx_added ∧
      st.nr_rx_added ≤ (add_ranges ctx st ks rs b).1.nr_rx_added) := by
  refine ⟨?_, ?_, ?_, ?_, ?_, ?_, ?_, ?_⟩
  · intro st ks m h
    rw [add_tx_ranges, if_pos (by omega)]
  · intro st ks m h
    rw [add_rx_ranges, if_pos (by omega)]
  · intro ctx st ks rs b h
    rw [add_ranges, if_pos (by omega)]
  · intro st ks m h
    rw [add_tx_ranges] at h ⊢
    by_cases hc : st.nr_rx_added ≠ 0
    · rw [if_pos hc] at h
      cases h
    · rw [if_neg hc]
      simp
  · intro st ks m h
    rw [add_rx_ranges] at h ⊢
    by_cases hc : st.nr_tx_added ≠ 0
    · rw [if_pos hc] at h
      cases h
    · rw [if_neg hc]
      simp
  · intro ctx st ks rs b h
    rw [add_ranges] at h ⊢
    by_cases hc : st.nr_tx_added ≠ 0
    · rw [if_pos hc] at h
      simp at h
    · rw [if_neg hc]
      rcases h2 : add_ranges_resolution ctx ks rs b with e | rws
      · simp [h2]
      · rcases h3 : get_range_fetch_map ctx rws ks with e | fm <;> simp [h2, h3]
  · intro st ks m
    rw [add_tx_ranges, add_rx_ranges]
    refine ⟨?_, ?_, ?_, ?_⟩ <;> split <;> simp
  · intro ctx st ks rs b
    rw [add_ranges]
    by_cases hc : st.nr_tx_added ≠ 0
    · rw [if_pos hc]
      simp
    · rw [if_neg hc]
      rcases h2 : add_ranges_resolution ctx ks rs b with e | rws
      · simp [h2]
      · rcases h3 : get_range_fetch_map ctx rws ks with e | fm <;> simp [h2, h3]

/-- Witness for C7 at concrete states: a run with one receive added
rejects a send, and a run with one send added rejects both receive
entry points. -/
theorem direction_mutual_exclusion_witness :
    add_tx_ranges ⟨0, 1, []⟩ "ks" [] = (⟨0, 1, []⟩, some .mixed_direction) ∧
    add_rx_ranges ⟨1, 0, []⟩ "ks" [] = (⟨1, 0, []⟩, some .mixed_direction) ∧
    add_ranges ctxW1 ⟨1, 0, []⟩ "ks" [] false = (⟨1, 0, []⟩, some .mixed_direction) :=
  ⟨direction_mutual_exclusion.1 ⟨0, 1, []⟩ "ks" [] (by decide),
   direction_mutual_exclusion.2.1 ⟨1, 0, []⟩ "ks" [] (by decide),
   direction_mutual_exclusion.2.2.1 ctxW1 ⟨1, 0, []⟩ "ks" [] false (by decide)⟩

/-- C10: in `add_ranges`, strict resolution is additionally bypassed
whenever `is_replacing` is true — a replacing node resolves sources with
`get_all_ranges_with_sources_for` even when all four strict-mode
eligibility conditions hold, while a non-replacing node under the same
conditions resolves strictly. -/
theorem add_ranges_replacing_bypasses_strict (ctx : RangeStreamerCtx) (ks : String)
    (rs : List TokenRange) (h : use_strict_sources_for_ranges ctx ks = true) :
    add_ranges_resolution ctx ks rs true = get_all_ranges_with_sources_for ctx ks rs ∧
    add_ranges_resolution ctx ks rs false = get_all_ranges_with_strict_sources_for ctx ks rs := by
  constructor
  · rw [add_ranges_resolution]
    simp
  · rw [add_ranges_resolution]
    simp [h]

/-- Witness for C10: `ctxW4` satisfies all four strict-eligibility
conditions, and a replacing `add_ranges` still resolves normally. -/
theorem add_ranges_replacing_bypasses_strict_witness :
    use_strict_sources_for_ranges ctxW4 "ks" = true ∧
    (add_ranges_resolution ctxW4 "ks" [5] true = get_all_ranges_with_sources_for ctxW4 "ks" [5] ∧
     add_ranges_resolution ctxW4 "ks" [5] false =
       get_all_ranges_with_strict_sources_for ctxW4 "ks" [5]) :=
  ⟨by decide, add_ranges_replacing_bypasses_strict ctxW4 "ks" [5] (by decide)⟩

lemma stream_source_loop_ok {fails : Nat → Bool} {plan : Nat} :
    ∀ (vec : List TokenRange) (sp : Nat) (chunk : List TokenRange)
      (done r : List (List TokenRange)),
    chunk.length < max 1 plan →
    (∀ c ∈ done, 0 < c.length ∧ c.length ≤ max 1 plan) →
    stream_source_loop fails plan sp chunk done vec = .ok r →
    r.flatten = done.flatten ++ chunk ++ vec ∧
      ∀ c ∈ r, 0 < c.length ∧ c.length ≤ max 1 plan := by
  intro vec
  induction vec with
  | nil =>
    intro sp chunk done r hlen hdone h
    rw [stream_source_loop] at h
    by_cases hc : chunk.isEmpty
    · rw [if_pos hc] at h
      injection h with h
      subst h
      have : chunk = [] := List.isEmpty_iff.mp hc
      subst this
      exact ⟨by simp, hdone⟩
    · rw [if_neg hc] at h
      by_cases hf : fails sp = true
      · rw [if_pos hf] at h
        cases h
      · rw [if_neg hf] at h
        injection h with h
        subst h
        constructor
        · simp
        · intro c hc2
          rcases List.mem_append.mp hc2 with h1 | h1
          · exact hdone c h1
          · have : c = chunk := by simpa using h1
            subst this
            have : c ≠ [] := by simpa [List.isEmpty_iff] using hc
            exact ⟨List.length_pos.mpr this, Nat.le_of_lt hlen⟩
  | cons r0 rest ih =>
    intro sp chunk done r hlen hdone h
    rw [stream_source_loop] at h
    by_cases h1 : (chunk ++ [r0]).length < plan
    · rw [if_pos h1] at h
      have hlt : (chunk ++ [r0]).length < max 1 plan := lt_of_lt_of_le h1 (le_max_right 1 plan)
      obtain ⟨hj, hs⟩ := ih sp (chunk ++ [r0]) done r hlt hdone h
      refine ⟨?_, hs⟩
      rw [hj]
      simp
    · rw [if_neg h1] at h
      by_cases hf : fails sp = true
      · rw [if_pos hf] at h
        cases h
      · rw [if_neg hf] at h
        have hch : (chunk ++ [r0]).length ≤ max 1 plan := by
          have : chunk.length + 1 ≤ max 1 plan := hlen
          simpa using this
        have hdone2 : ∀ c ∈ done ++ [chunk ++ [r0]], 0 < c.length ∧ c.length ≤ max 1 plan := by
          intro c hc2
          rcases List.mem_append.mp hc2 with h2 | h2
          · exact hdone c h2
          · have : c = chunk ++ [r0] := by simpa using h2
            subst this
            exact ⟨by simp, hch⟩
        have h0 : ([] : List TokenRange).length < max 1 plan := by
          simp
        obtain ⟨hj, hs⟩ := ih (sp + 1) [] (done ++ [chunk ++ [r0]]) r h0 hdone2 h
        refine ⟨?_, hs⟩
        rw [hj]
        simp

lemma stream_source_loop_error {fails : Nat → Bool} {plan : Nat} :
    ∀ (vec : List TokenRange) (sp : Nat) (chunk : List TokenRange)
      (done : List (List TokenRange)) (rem : List TokenRange)
      (doneF : List (List TokenRange)),
    stream_source_loop fails plan sp chunk done vec = .error (rem, doneF) →
    ∃ failed undisp, rem = undisp ++ failed ∧
      doneF.flatten ++ failed ++ undisp = done.flatten ++ chunk ++ vec := by
  intro vec
  induction vec with
  | nil =>
    intro sp chunk done rem doneF h
    rw [stream_source_loop] at h
    by_cases hc : chunk.isEmpty
    · rw [if_pos hc] at h
      cases h
    · rw [if_neg hc] at h
      by_cases hf : fails sp = true
      · rw [if_pos hf] at h
        injection h with h
        injection h with h1 h2
        subst h1
        subst h2
        exact ⟨chunk, [], by simp, by simp⟩
      · rw [if_neg hf] at h
        cases h
  | cons r0 rest ih =>
    intro sp chunk done rem doneF h
    rw [stream_source_loop] at h
    by_cases h1 : (chunk ++ [r0]).length < plan
    · rw [if_pos h1] at h
      obtain ⟨failed, undisp, he, hj⟩ := ih sp (chunk ++ [r0]) done rem doneF h
      refine ⟨failed, undisp, he, ?_⟩
      rw [hj]
      simp
    · rw [if_neg h1] at h
      by_cases hf : fails sp = true
      · rw [if_pos hf] at h
        injection h with h
        injection h with h2 h3
        subst h2
        subst h3
        exact ⟨chunk ++ [r0], rest, rfl, by simp⟩
      · rw [if_neg hf] at h
        obtain ⟨failed, undisp, he, hj⟩ := ih (sp + 1) [] (done ++ [chunk ++ [r0]]) rem doneF h
        refine ⟨failed, undisp, he, ?_⟩
        rw [hj]
        simp

/-- C8: for every source whose work list holds `N` ranges, the chunking
loop of `stream_async` dispatches the ranges in FIFO order — the
concatenation of the dispatched chunks, in dispatch order, is the original
work list — and every chunk is non-empty with at most
`max 1 (N / 10)` ranges. -/
theorem stream_chunking_fifo_bounded (fails : Nat → Bool) (vec : List TokenRange)
    (chunks : List (List TokenRange))
    (hok : stream_async_source fails vec = .ok chunks) :
    chunks.flatten = vec ∧
    ∀ c ∈ chunks, 0 < c.length ∧ c.length ≤ max 1 (vec.length / 10) := by
  have h := @stream_source_loop_ok fails (vec.length / 10) vec 0 [] [] chunks
    (by simp) (by simp) hok
  simpa using h

/-- Witness for C8: a 25-range work list is dispatched as thirteen chunks
of at most two ranges in FIFO order. -/
theorem stream_chunking_fifo_bounded_witness :
    stream_async_source (fun _ => false) (List.range 25) =
      .ok [[0, 1], [2, 3], [4, 5], [6, 7], [8, 9], [10, 11], [12, 13], [14, 15],
           [16, 17], [18, 19], [20, 21], [22, 23], [24]] ∧
    (([[0, 1], [2, 3], [4, 5], [6, 7], [8, 9], [10, 11], [12, 13], [14, 15],
       [16, 17], [18, 19], [20, 21], [22, 23], [24]] : List (List TokenRange)).flatten =
        List.range 25 ∧
      ∀ c ∈ ([[0, 1], [2, 3], [4, 5], [6, 7], [8, 9], [10, 11], [12, 13], [14, 15],
              [16, 17], [18, 19], [20, 21], [22, 23], [24]] : List (List TokenRange)),
        0 < c.length ∧ c.length ≤ max 1 ((List.range 25).length / 10)) :=
  ⟨by rfl, stream_chunking_fifo_bounded (fun _ => false) (List.range 25) _ (by rfl)⟩

/-- Counterexample to C6 as stated: with a 20-range work list and the
second stream plan failing, the first chunk `[0, 1]` completes, the failed
chunk is `[2, 3]`, and the restored work list is the undispatched ranges
`[4..19]` *followed* by `[2, 3]` — the failed chunk is appended at the
back, not restored to the front as the claim states. -/
theorem stream_failed_chunk_front_counterexample :
    stream_async_source (fun i => i == 1) (List.range 20) =
      .error (List.range' 4 16 ++ [2, 3], [[0, 1]]) ∧
    List.range' 4 16 ++ [2, 3] ≠ [2, 3] ++ List.range' 4 16 := by
  constructor
  · rfl
  · decide

/-- C6 (amended): when a chunk fails, the failed chunk's ranges are
appended to the back of the source's remaining work list before the error
propagates, so the work list afterwards consists exactly of the
undispatched ranges followed by the failed chunk's ranges, and the
reported `nr_ranges_to_stream` equals the failed chunk's ranges plus the
undispatched ranges — completed chunks are never recounted. -/
theorem stream_failed_chunk_restored_back (fails : Nat → Bool)
    (vec rem : List TokenRange) (doneF : List (List TokenRange))
    (herr : stream_async_source fails vec = .error (rem, doneF)) :
    ∃ failed undisp, rem = undisp ++ failed ∧
      doneF.flatten ++ failed ++ undisp = vec ∧
      rem.length + doneF.flatten.length = vec.length ∧
      ∀ (ks : String) (src : Endpoint),
        nr_ranges_to_stream [(ks, [(src, rem)])] = failed.length + undisp.length := by
  obtain ⟨failed, undisp, he, hj⟩ :=
    @stream_source_loop_error fails (vec.length / 10) vec 0 [] [] rem doneF herr
  simp only [List.flatten_nil, List.nil_append, List.append_nil] at hj
  refine ⟨failed, undisp, he, hj, ?_, ?_⟩
  · have h2 : rem.length = undisp.length + failed.length := by
      rw [he]
      simp
    have hv : vec.length = doneF.flatten.length + failed.length + undisp.length := by
      rw [← hj]
      simp only [List.length_append]
    omega
  · intro ks src
    rw [nr_ranges_to_stream]
    simp [he]
    omega

/-- Witness for C6 (amended), at the counterexample input: 20 ranges,
second plan fails; 18 ranges remain (16 undispatched plus the 2 of the
failed chunk), the 2 completed ranges are not recounted. -/
theorem stream_failed_chunk_restored_back_witness :
    stream_async_source (fun i => i == 1) (List.range 20) =
      .error (List.range' 4 16 ++ [2, 3], [[0, 1]]) ∧
    (∃ failed undisp, List.range' 4 16 ++ [2, 3] = undisp ++ failed ∧
      ([[0, 1]] : List (List TokenRange)).flatten ++ failed ++ undisp = List.range 20 ∧
      (List.range' 4 16 ++ [2, 3]).length +
        ([[0, 1]] : List (List TokenRange)).flatten.length = (List.range 20).length ∧
      ∀ (ks : String) (src : Endpoint),
        nr_ranges_to_stream [(ks, [(src, List.range' 4 16 ++ [2, 3])])] =
          failed.length + undisp.length) :=
  ⟨by rfl,
   stream_failed_chunk_restored_back (fun i => i == 1) (List.range 20)
     (List.range' 4 16 ++ [2, 3]) [[0, 1]] (by rfl)⟩

lemma assocFind_assocAppend_eq {κ α : Type} [DecidableEq κ] :
    ∀ (m : List (κ × List α)) (k : κ) (v : α),
    assocFind (assocAppend m k v) k = some (((assocFind m k).getD []) ++ [v]) := by
  intro m
  induction m with
  | nil =>
    intro k v
    simp [assocAppend, assocFind]
  | cons e rest ih =>
    obtain ⟨k0, vs⟩ := e
    intro k v
    rw [assocAppend]
    by_cases hk : k0 = k
    · rw [if_pos hk, assocFind, if_pos hk, assocFind, if_pos hk]
      simp
    · rw [if_neg hk, assocFind, if_neg hk, assocFind, if_neg hk]
      exact ih k v

lemma assocFind_assocAppend_ne {κ α : Type} [DecidableEq κ] :
    ∀ (m : List (κ × List α)) (k k' : κ) (v : α), k' ≠ k →
    assocFind (assocAppend m k v) k' = assocFind m k' := by
  intro m
  induction m with
  | nil =>
    intro k k' v hne
    simp [assocAppend, assocFind, Ne.symm hne]
  | cons e rest ih =>
    obtain ⟨k0, vs⟩ := e
    intro k k' v hne
    rw [assocAppend]
    by_cases hk : k0 = k
    · rw [if_pos hk, assocFind, assocFind]
      have : k0 ≠ k' := by rw [hk]; exact Ne.symm hne
      rw [if_neg this, if_neg this]
    · rw [if_neg hk, assocFind, assocFind]
      by_cases hk2 : k0 = k'
      · rw [if_pos hk2, if_pos hk2]
      · rw [if_neg hk2, if_neg hk2]
        exact ih k k' v hne

lemma strict_collect_find_ne {ctx : RangeStreamerCtx} {ks : String} {d : TokenRange} :
    ∀ {l : List (TokenRange × List Endpoint)} {sources s1 : SourcesMap},
    strict_collect ctx ks d sources l = .ok s1 →
    ∀ k, k ≠ d → assocFind s1 k = assocFind sources k := by
  intro l
  induction l with
  | nil =>
    intro sources s1 h k hk
    rw [strict_collect] at h
    injection h with h
    subst h
    rfl
  | cons e rest ih =>
    obtain ⟨src, eps⟩ := e
    intro sources s1 h k hk
    rw [strict_collect] at h
    by_cases hc : ctx.contains src d = true
    · rw [if_pos hc] at h
      rcases hp : strict_pick ctx ks d eps with e0 | e0 <;> simp only [hp] at h
      · cases h
      · rw [ih h k hk]
        exact assocFind_assocAppend_ne sources d k e0 hk
    · rw [if_neg hc] at h
      exact ih h k hk

lemma strict_collect_len {ctx : RangeStreamerCtx} {ks : String} {d : TokenRange} :
    ∀ {l : List (TokenRange × List Endpoint)} {sources s1 : SourcesMap},
    strict_collect ctx ks d sources l = .ok s1 →
    sourcesLen s1 d = sourcesLen sources d +
      (l.filter (fun x => ctx.contains x.1 d)).length := by
  intro l
  induction l with
  | nil =>
    intro sources s1 h
    rw [strict_collect] at h
    injection h with h
    subst h
    simp
  | cons e rest ih =>
    obtain ⟨src, eps⟩ := e
    intro sources s1 h
    rw [strict_collect] at h
    by_cases hc : ctx.contains src d = true
    · rw [if_pos hc] at h
      rcases hp : strict_pick ctx ks d eps with e0 | e0 <;> simp only [hp] at h
      · cases h
      · have hrec := ih h
        have hins : sourcesLen (assocAppend sources d e0) d = sourcesLen sources d + 1 := by
          rw [sourcesLen, sourcesLen, assocFind_assocAppend_eq]
          simp
        rw [hrec, hins]
        simp [List.filter_cons, hc]
        omega
    · rw [if_neg hc] at h
      have hrec := ih h
      rw [hrec]
      simp [List.filter_cons, hc]

lemma strict_collect_pick_err {ctx : RangeStreamerCtx} {ks : String} {d : TokenRange}
    {src : TokenRange} {eps : List Endpoint} {err : ResolveError} :
    ∀ {l : List (TokenRange × List Endpoint)} {sources : SourcesMap},
    (src, eps) ∈ l → ctx.contains src d = true →
    strict_pick ctx ks d eps = .error err →
    ∀ s1, strict_collect ctx ks d sources l ≠ .ok s1 := by
  intro l
  induction l with
  | nil =>
    intro sources hmem
    cases hmem
  | cons e rest ih =>
    obtain ⟨src0, eps0⟩ := e
    intro sources hmem hc hp s1 h
    rw [strict_collect] at h
    rcases List.mem_cons.mp hmem with he | he
    · injection he with h1 h2
      subst h1
      subst h2
      rw [if_pos hc, hp] at h
      cases h
    · by_cases hc0 : ctx.contains src0 d = true
      · rw [if_pos hc0] at h
        rcases hp0 : strict_pick ctx ks d eps0 with e0 | e0 <;> simp only [hp0] at h
        · cases h
        · exact ih he hc hp s1 h
      · rw [if_neg hc0] at h
        exact ih he hc hp s1 h

lemma strict_collect_nofilter {ctx : RangeStreamerCtx} {ks : String} {d : TokenRange} :
    ∀ {l : List (TokenRange × List Endpoint)} {sources s1 : SourcesMap},
    l.filter (fun x => ctx.contains x.1 d) = [] →
    strict_collect ctx ks d sources l = .ok s1 → s1 = sources := by
  intro l
  induction l with
  | nil =>
    intro sources s1 _ h
    rw [strict_collect] at h
    injection h with h
    exact h.symm
  | cons e rest ih =>
    obtain ⟨src0, eps0⟩ := e
    intro sources s1 hf h
    rw [strict_collect] at h
    by_cases hc0 : ctx.contains src0 d = true
    · rw [List.filter_cons, if_pos (by simpa using hc0)] at hf
      cases hf
    · rw [List.filter_cons, if_neg (by simpa using hc0)] at hf
      rw [if_neg hc0] at h
      exact ih hf h

lemma strict_collect_unique {ctx : RangeStreamerCtx} {ks : String} {d : TokenRange}
    {src : TokenRange} {eps : List Endpoint} :
    ∀ {l : List (TokenRange × List Endpoint)} {sources s1 : SourcesMap},
    l.filter (fun x => ctx.contains x.1 d) = [(src, eps)] →
    strict_collect ctx ks d sources l = .ok s1 →
    ∃ e, strict_pick ctx ks d eps = .ok e ∧
      assocFind s1 d = some (((assocFind sources d).getD []) ++ [e]) := by
  intro l
  induction l with
  | nil =>
    intro sources s1 hf
    cases hf
  | cons x rest ih =>
    obtain ⟨src0, eps0⟩ := x
    intro sources s1 hf h
    rw [strict_collect] at h
    by_cases hc0 : ctx.contains src0 d = true
    · rw [List.filter_cons, if_pos (by simpa using hc0)] at hf
      injection hf with h1 h2
      injection h1 with h3 h4
      subst h3
      subst h4
      rw [if_pos hc0] at h
      rcases hp : strict_pick ctx ks d eps0 with e0 | e0 <;> simp only [hp] at h
      · cases h
      · have hs : s1 = assocAppend sources d e0 := strict_collect_nofilter h2 h
        refine ⟨e0, rfl, ?_⟩
        rw [hs, assocFind_assocAppend_eq]
    · rw [List.filter_cons, if_neg (by simpa using hc0)] at hf
      rw [if_neg hc0] at h
      exact ih hf h

lemma strict_validate_sole {ctx : RangeStreamerCtx} {d : TokenRange} {sources : SourcesMap}
    (h : strict_validate ctx d sources = .ok ()) :
    ∃ e, assocFind sources d = some [e] := by
  rw [strict_validate] at h
  rcases hf : assocFind sources d with _ | eps <;> rw [hf] at h
  · cases h
  · rcases eps with _ | ⟨e, _ | ⟨e2, t⟩⟩
    · cases h
    · exact ⟨e, rfl⟩
    · cases h

lemma strict_go_append {ctx : RangeStreamerCtx} {ks : String} :
    ∀ (ds1 ds2 : List TokenRange) (s : SourcesMap),
    get_all_ranges_with_strict_sources_for_go ctx ks s (ds1 ++ ds2) =
      match get_all_ranges_with_strict_sources_for_go ctx ks s ds1 with
      | .error e => .error e
      | .ok s1 => get_all_ranges_with_strict_sources_for_go ctx ks s1 ds2 := by
  intro ds1
  induction ds1 with
  | nil =>
    intro ds2 s
    simp only [List.nil_append, get_all_ranges_with_strict_sources_for_go]
  | cons d0 rest ih =>
    intro ds2 s
    rw [List.cons_append, get_all_ranges_with_strict_sources_for_go,
      get_all_ranges_with_strict_sources_for_go]
    rcases hc : strict_collect ctx ks d0 s (ctx.keyspaces ks).strat_range_addresses
        with e | s1 <;> simp only [hc]
    rcases hv : strict_validate ctx d0 s1 with e | u <;> simp only [hv]
    exact ih ds2 s1

lemma strict_go_find_not_mem {ctx : RangeStreamerCtx} {ks : String} :
    ∀ {ds : List TokenRange} {s m : SourcesMap},
    get_all_ranges_with_strict_sources_for_go ctx ks s ds = .ok m →
    ∀ d, d ∉ ds → assocFind m d = assocFind s d := by
  intro ds
  induction ds with
  | nil =>
    intro s m h d _
    rw [get_all_ranges_with_strict_sources_for_go] at h
    injection h with h
    subst h
    rfl
  | cons d0 rest ih =>
    intro s m h d hd
    rw [get_all_ranges_with_strict_sources_for_go] at h
    rcases hc : strict_collect ctx ks d0 s (ctx.keyspaces ks).strat_range_addresses
        with e | s1 <;> simp only [hc] at h
    · cases h
    · rcases hv : strict_validate ctx d0 s1 with e | u <;> simp only [hv] at h
      · cases h
      · have hd0 : d ≠ d0 := fun he => hd (he ▸ List.mem_cons_self d0 rest)
        have hdr : d ∉ rest := fun he => hd (List.mem_cons_of_mem d0 he)
        rw [ih h d hdr]
        exact strict_collect_find_ne hc d hd0

lemma strict_go_err {ctx : RangeStreamerCtx} {ks : String} {d : TokenRange}
    (hcol : ∀ (sources : SourcesMap) s1,
      strict_collect ctx ks d sources (ctx.keyspaces ks).strat_range_addresses ≠ .ok s1) :
    ∀ {ds : List TokenRange} {s : SourcesMap}, d ∈ ds →
    ∀ m, get_all_ranges_with_strict_sources_for_go ctx ks s ds ≠ .ok m := by
  intro ds
  induction ds with
  | nil =>
    intro s hd
    cases hd
  | cons d0 rest ih =>
    intro s hd m h
    rw [get_all_ranges_with_strict_sources_for_go] at h
    rcases hc : strict_collect ctx ks d0 s (ctx.keyspaces ks).strat_range_addresses
        with e | s1 <;> simp only [hc] at h
    · cases h
    · rcases List.mem_cons.mp hd with he | he
      · subst he
        exact hcol s s1 hc
      · rcases hv : strict_validate ctx d0 s1 with e | u <;> simp only [hv] at h
        · cases h
        · exact ih he m h

lemma strict_go_sole {ctx : RangeStreamerCtx} {ks : String} :
    ∀ {ds : List TokenRange} {s m : SourcesMap},
    get_all_ranges_with_strict_sources_for_go ctx ks s ds = .ok m →
    ∀ d ∈ ds, ∃ e, assocFind m d = some [e] := by
  intro ds
  induction ds with
  | nil =>
    intro s m _ d hd
    cases hd
  | cons d0 rest ih =>
    intro s m h d hd
    rw [get_all_ranges_with_strict_sources_for_go] at h
    rcases hc : strict_collect ctx ks d0 s (ctx.keyspaces ks).strat_range_addresses
        with e | s1 <;> simp only [hc] at h
    · cases h
    · rcases hv : strict_validate ctx d0 s1 with e | u <;> simp only [hv] at h
      · cases h
      · by_cases hdr : d ∈ rest
        · exact ih h d hdr
        · have hd0 : d = d0 := by
            rcases List.mem_cons.mp hd with he | he
            · exact he
            · exact absurd he hdr
          subst hd0
          cases u
          obtain ⟨e, he⟩ := strict_validate_sole hv
          exact ⟨e, by rw [strict_go_find_not_mem h d hdr, he]⟩

lemma strict_pick_rf_err {ctx : RangeStreamerCtx} {ks : String} {d : TokenRange}
    {eps newEps : List Endpoint}
    (hpend : assocFind (ctx.keyspaces ks).pending_range_addresses d = some newEps)
    (hlen : eps.length = (ctx.keyspaces ks).rf)
    (hcard : (active_minus_pending eps newEps).length ≠ 1) :
    ∃ n, strict_pick ctx ks d eps = .error (.expected_one_endpoint n) := by
  unfold strict_pick
  simp only [hpend]
  rw [if_pos hlen]
  rcases hamp : active_minus_pending eps newEps with _ | ⟨e1, _ | ⟨e2, t⟩⟩
  · exact ⟨0, rfl⟩
  · exact absurd (by rw [hamp]; rfl) hcard
  · exact ⟨(e1 :: e2 :: t).length, rfl⟩

lemma strict_pick_rf_ok {ctx : RangeStreamerCtx} {ks : String} {d : TokenRange}
    {eps newEps : List Endpoint} {e : Endpoint}
    (hpend : assocFind (ctx.keyspaces ks).pending_range_addresses d = some newEps)
    (hlen : eps.length = (ctx.keyspaces ks).rf)
    (h : strict_pick ctx ks d eps = .ok e) :
    active_minus_pending eps newEps = [e] := by
  unfold strict_pick at h
  simp only [hpend] at h
  rw [if_pos hlen] at h
  rcases hamp : active_minus_pending eps newEps with _ | ⟨e1, _ | ⟨e2, t⟩⟩ <;>
    rw [hamp] at h
  · cases h
  · injection h with h
    rw [h]
  · cases h

/-- C4: strict-mode resolution. For a desired range contained in a ring
range whose active replica set has exactly the replication factor many
endpoints: (a) if the set of active endpoints absent from the pending view
does not have exactly one element, resolution fails; (b) if resolution
succeeds, that set has exactly one element and it is the sole resolved
source of the range; (c) on success every desired range has exactly one
resolved source (the per-range validation), so no other cardinality is
ever silently accepted. -/
theorem strict_sources_exactly_one (ctx : RangeStreamerCtx) (ks : String) :
    (∀ (ds : List TokenRange) (d src : TokenRange) (eps newEps : List Endpoint),
      (src, eps) ∈ (ctx.keyspaces ks).strat_range_addresses →
      ctx.contains src d = true →
      eps.length = (ctx.keyspaces ks).rf →
      assocFind (ctx.keyspaces ks).pending_range_addresses d = some newEps →
      (active_minus_pending eps newEps).length ≠ 1 →
      d ∈ ds →
      ∀ m, get_all_ranges_with_strict_sources_for ctx ks ds ≠ .ok m) ∧
    (∀ (ds : List TokenRange) (d src : TokenRange) (eps newEps : List Endpoint)
        (m : SourcesMap),
      get_all_ranges_with_strict_sources_for ctx ks ds = .ok m →
      ds.Nodup → d ∈ ds →
      (src, eps) ∈ (ctx.keyspaces ks).strat_range_addresses →
      ctx.contains src d = true →
      eps.length = (ctx.keyspaces ks).rf →
      assocFind (ctx.keyspaces ks).pending_range_addresses d = some newEps →
      ∃ e, active_minus_pending eps newEps = [e] ∧ assocFind m d = some [e]) ∧
    (∀ (ds : List TokenRange) (m : SourcesMap),
      get_all_ranges_with_strict_sources_for ctx ks ds = .ok m →
      ∀ d ∈ ds, ∃ e, assocFind m d = some [e]) := by
  refine ⟨?_, ?_, ?_⟩
  · intro ds d src eps newEps hmem hcont hlen hpend hcard hd m
    obtain ⟨n, hpick⟩ := strict_pick_rf_err hpend hlen hcard
    have hcol : ∀ (sources : SourcesMap) s1,
        strict_collect ctx ks d sources (ctx.keyspaces ks).strat_range_addresses ≠ .ok s1 :=
      fun sources s1 => strict_collect_pick_err hmem hcont hpick s1
    exact strict_go_err hcol hd m
  · intro ds d src eps newEps m hok hnd hd hmem hcont hlen hpend
    obtain ⟨l1, l2, rfl⟩ := List.append_of_mem hd
    have hcnt : (l1 ++ d :: l2).count d ≤ 1 := List.nodup_iff_count_le_one.mp hnd d
    have hsplit : (l1 ++ d :: l2).count d = l1.count d + (l2.count d + 1) := by
      simp [List.count_append, List.count_cons]
    have hnl1 : d ∉ l1 := List.count_eq_zero.mp (by omega)
    have hnl2 : d ∉ l2 := List.count_eq_zero.mp (by omega)
    rw [get_all_ranges_with_strict_sources_for, strict_go_append] at hok
    rcases h1 : get_all_ranges_with_strict_sources_for_go ctx ks [] l1
        with e | s1 <;> simp only [h1] at hok
    · cases hok
    · rw [get_all_ranges_with_strict_sources_for_go] at hok
      rcases hc : strict_collect ctx ks d s1 (ctx.keyspaces ks).strat_range_addresses
          with e | s2 <;> simp only [hc] at hok
      · cases hok
      · rcases hv : strict_validate ctx d s2 with e | u <;> simp only [hv] at hok
        · cases hok
        · cases u
          have hfind1 : assocFind s1 d = none := by
            rw [strict_go_find_not_mem h1 d hnl1]
            rfl
          obtain ⟨e0, hfind2⟩ := strict_validate_sole hv
          have hlen1 : sourcesLen s1 d = 0 := by rw [sourcesLen, hfind1]; rfl
          have hlen2 : sourcesLen s2 d = 1 := by rw [sourcesLen, hfind2]; rfl
          have hflen := strict_collect_len hc
          have hfl1 : (((ctx.keyspaces ks).strat_range_addresses).filter
              (fun x => ctx.contains x.1 d)).length = 1 := by omega
          obtain ⟨a, ha⟩ := List.length_eq_one.mp hfl1
          have hmemf : (src, eps) ∈ ((ctx.keyspaces ks).strat_range_addresses).filter
              (fun x => ctx.contains x.1 d) :=
            List.mem_filter.mpr ⟨hmem, by simpa using hcont⟩
          have haeq : a = (src, eps) := by
            rw [ha] at hmemf
            exact (List.mem_singleton.mp hmemf).symm
          rw [haeq] at ha
          obtain ⟨e, hpick, hfind⟩ := strict_collect_unique ha hc
          have hamp := strict_pick_rf_ok hpend hlen hpick
          refine ⟨e, hamp, ?_⟩
          rw [strict_go_find_not_mem hok d hnl2, hfind, hfind1]
          rfl
  · intro ds m hok d hd
    exact strict_go_sole hok d hd

/-- Witness for C4 at concrete rings: with active endpoints `[1, 2]`
(count = RF = 2) for ring range 10 and pending `[2, 3]`, resolution
succeeds and endpoint 1 is the sole source; with pending `[]` both active
endpoints survive the difference and resolution fails. -/
theorem strict_sources_exactly_one_witness :
    (∀ m, get_all_ranges_with_strict_sources_for ctxW6 "ks" [10] ≠ .ok m) ∧
    (∃ e, active_minus_pending [1, 2] [2, 3] = [e] ∧
      assocFind [((10 : TokenRange), [(1 : Endpoint)])] (10 : TokenRange) = some [e]) ∧
    (∀ d ∈ [(10 : TokenRange)], ∃ e,
      assocFind [((10 : TokenRange), [(1 : Endpoint)])] d = some [e]) ∧
    get_all_ranges_with_strict_sources_for ctxW5 "ks" [10] = .ok [(10, [1])] :=
  ⟨(strict_sources_exactly_one ctxW6 "ks").1 [10] 10 10 [1, 2] [] (by decide) (by rfl)
      (by rfl) (by rfl) (by decide) (by decide),
   (strict_sources_exactly_one ctxW5 "ks").2.1 [10] 10 10 [1, 2] [2, 3] [(10, [1])]
      (by rfl) (by decide) (by decide) (by decide) (by rfl) (by rfl) (by rfl),
   (strict_sources_exactly_one ctxW5 "ks").2.2 [10] [(10, [1])] (by rfl),
   by rfl⟩

lemma decodeCell_encodeCell (c : Cell) (rest : List Nat) :
    decodeCell (encodeCell c ++ rest) = some (c, rest) := rfl

lemma decodeCellsN_encode (cs : List Cell) (rest : List Nat) :
    decodeCellsN cs.length ((cs.map encodeCell).flatten ++ rest) = some (cs, rest) := by
  induction cs generalizing rest with
  | nil => rfl
  | cons c cs ih =>
    rw [List.map_cons, List.flatten_cons, List.length_cons, List.append_assoc,
      decodeCellsN, decodeCell_encodeCell]
    simp [ih]

lemma decodeCells_encodeCells (cs : List Cell) (rest : List Nat) :
    decodeCells (encodeCells cs ++ rest) = some (cs, rest) := by
  rw [encodeCells, List.cons_append, decodeCells]
  exact decodeCellsN_encode cs rest

lemma decodeRow_encodeRow (r : ClusteringRow) (rest : List Nat) :
    decodeRow (encodeRow r ++ rest) = some (r, rest) := by
  rw [encodeRow, List.cons_append, List.cons_append, decodeRow,
    decodeCells_encodeCells]

lemma decodeRowsN_encode (rs : List ClusteringRow) (rest : List Nat) :
    decodeRowsN rs.length ((rs.map encodeRow).flatten ++ rest) = some (rs, rest) := by
  induction rs generalizing rest with
  | nil => rfl
  | cons r rs ih =>
    rw [List.map_cons, List.flatten_cons, List.length_cons, List.append_assoc,
      decodeRowsN, decodeRow_encodeRow]
    simp [ih]

lemma decodeRows_encodeRows (rs : List ClusteringRow) (rest : List Nat) :
    decodeRows (encodeRows rs ++ rest) = some (rs, rest) := by
  rw [encodeRows, List.cons_append, decodeRows]
  exact decodeRowsN_encode rs rest

lemma decodeTomb_encodeTomb (t : Option (Nat × Nat)) (rest : List Nat) :
    decodeTomb (encodeTomb t ++ rest) = some (t, rest) := by
  rcases t with _ | ⟨a, b⟩ <;> rfl

lemma decodeMutation_encodeMutation (m : Mutation) :
    decodeMutation (encodeMutation m) = some m := by
  obtain ⟨v, pk, tomb, sr, rs⟩ := m
  show decodeMutation (v :: pk ::
    (encodeTomb tomb ++ encodeCells sr ++ encodeRows rs)) = _
  rw [decodeMutation]
  have hassoc : encodeTomb tomb ++ encodeCells sr ++ encodeRows rs =
      encodeTomb tomb ++ (encodeCells sr ++ (encodeRows rs ++ [])) := by
    simp [List.append_assoc]
  rw [hassoc]
  have hrows : decodeRows (encodeRows rs) = some (rs, []) := by
    simpa using decodeRows_encodeRows rs []
  simp [decodeTomb_encodeTomb, decodeCells_encodeCells, hrows]

/-- C2: the freeze/unfreeze round-trip. For every mutation `M` built under
a schema and every schema `S` with the matching version,
`unfreeze (freeze M) S` reconstructs `M` exactly — the schema version, the
partition key, the partition tombstone, the static row and all clustering
rows — and the frozen mutation's decorated key and schema-version stamp
agree with `M`'s. -/
theorem freeze_unfreeze_roundtrip (m : Mutation) (s : Schema)
    (h : s.version = m.schema_version) :
    unfreeze (freeze m) s = .ok m ∧
    (freeze m).decorated_key = m.decorated_key ∧
    (freeze m).schema_version = m.schema_version := by
  have hstamp : (freeze m).schema_version = m.schema_version := rfl
  refine ⟨?_, rfl, hstamp⟩
  rw [unfreeze, if_pos (by rw [hstamp, h])]
  have : (freeze m).bytes = encodeMutation m := rfl
  rw [this, decodeMutation_encodeMutation]

/-- Witness for C2 at a concrete mutation with a partition tombstone, a
static row and a clustering row. -/
theorem freeze_unfreeze_roundtrip_witness :
    ((⟨3⟩ : Schema).version =
        (⟨3, 7, some (5, 6), [⟨1, 2, 3⟩], [⟨4, 5, [⟨6, 7, 8⟩]⟩]⟩ : Mutation).schema_version) ∧
    (unfreeze (freeze ⟨3, 7, some (5, 6), [⟨1, 2, 3⟩], [⟨4, 5, [⟨6, 7, 8⟩]⟩]⟩) ⟨3⟩ =
        .ok ⟨3, 7, some (5, 6), [⟨1, 2, 3⟩], [⟨4, 5, [⟨6, 7, 8⟩]⟩]⟩ ∧
      (freeze (⟨3, 7, some (5, 6), [⟨1, 2, 3⟩], [⟨4, 5, [⟨6, 7, 8⟩]⟩]⟩ : Mutation)).decorated_key =
        (⟨3, 7, some (5, 6), [⟨1, 2, 3⟩], [⟨4, 5, [⟨6, 7, 8⟩]⟩]⟩ : Mutation).decorated_key ∧
      (freeze (⟨3, 7, some (5, 6), [⟨1, 2, 3⟩], [⟨4, 5, [⟨6, 7, 8⟩]⟩]⟩ : Mutation)).schema_version =
        (⟨3, 7, some (5, 6), [⟨1, 2, 3⟩], [⟨4, 5, [⟨6, 7, 8⟩]⟩]⟩ : Mutation).schema_version) :=
  ⟨rfl, freeze_unfreeze_roundtrip ⟨3, 7, some (5, 6), [⟨1, 2, 3⟩], [⟨4, 5, [⟨6, 7, 8⟩]⟩]⟩ ⟨3⟩ rfl⟩

/-- C3: cross-schema safety. Unfreezing any frozen mutation against a
schema whose version differs from the frozen stamp fails with the
schema-mismatch error naming the stamp and the schema's version; in
particular this holds for `freeze M` whose stamp is `M`'s schema version.
The bytes are never decoded under the wrong schema. -/
theorem unfreeze_wrong_schema_fails :
    (∀ (fm : FrozenMutation) (s : Schema), s.version ≠ fm.schema_version →
      unfreeze fm s = .error (.schema_mismatch fm.schema_version s.version)) ∧
    (∀ (m : Mutation) (s : Schema), s.version ≠ m.schema_version →
      unfreeze (freeze m) s = .error (.schema_mismatch m.schema_version s.version)) := by
  have h1 : ∀ (fm : FrozenMutation) (s : Schema), s.version ≠ fm.schema_version →
      unfreeze fm s = .error (.schema_mismatch fm.schema_version s.version) := by
    intro fm s h
    rw [unfreeze, if_neg h]
  refine ⟨h1, ?_⟩
  intro m s h
  exact h1 (freeze m) s h

/-- Witness for C3: the concrete mutation of the C2 witness, stamped with
version 3, cannot be unfrozen with a version-4 schema. -/
theorem unfreeze_wrong_schema_fails_witness :
    ((⟨4⟩ : Schema).version ≠
        (⟨3, 7, some (5, 6), [⟨1, 2, 3⟩], [⟨4, 5, [⟨6, 7, 8⟩]⟩]⟩ : Mutation).schema_version) ∧
    unfreeze (freeze ⟨3, 7, some (5, 6), [⟨1, 2, 3⟩], [⟨4, 5, [⟨6, 7, 8⟩]⟩]⟩) ⟨4⟩ =
      .error (.schema_mismatch 3 4) :=
  ⟨by decide,
   unfreeze_wrong_schema_fails.2 ⟨3, 7, some (5, 6), [⟨1, 2, 3⟩], [⟨4, 5, [⟨6, 7, 8⟩]⟩]⟩ ⟨4⟩
     (by decide)⟩
